import Mathlib

/-!
Verification of `check_locales.py`, the locale-validation script of the
multi-account-containers l10n repository.

The script loads a reference locale's JSON message catalogs, loads every
other locale's catalogs, and collects two kinds of errors: placeholder
mismatches (tokens `$name$` in a translation versus placeholders declared
in the reference message) and occurrences of the pilcrow character.  The
definitions below are a shallow embedding of that script.  Python dicts
become association lists with insert-or-replace assignment, file-system
input becomes explicit data, printed output becomes a list of strings, and
an uncaught Python exception becomes an `Except`-style error value.
-/

namespace CheckLocales

/-- Membership test for the character class `[a-zA-Z0-9_@]` of the
placeholder regular expression `\$([a-zA-Z0-9_@]+)\$`. -/
def isTokenChar (c : Char) : Bool :=
  ( 'a' ≤ c && c ≤ 'z') || ( 'A' ≤ c && c ≤ 'Z') || ( '0' ≤ c && c ≤ '9')
    || c == '_' || c == '@'

/-- Left-to-right, non-overlapping scan of `re.findall` with the pattern
`\$([a-zA-Z0-9_@]+)\$`, as a one-pass state machine: `buf` is `none`
outside a candidate match and `some acc` after an opening `$` with the
token characters read so far (reversed).  A `$` closing a non-empty run
emits the captured group and resumes after it; a `$` after an empty run
starts a new candidate (the engine restarts one position later, which is
this `$`); a non-token character aborts the candidate — no match can
begin inside the aborted run, which contains no `$`. -/
def findTokensGo (buf : Option (List Char)) : List Char → List String
  | [] => []
  | c :: rest =>
    match buf with
    | none =>
      if c = '$' then findTokensGo (some []) rest
      else findTokensGo none rest
    | some acc =>
      if c = '$' then
        match acc with
        | [] => findTokensGo (some []) rest
        | _ :: _ => String.mk acc.reverse :: findTokensGo none rest
      else if isTokenChar c then findTokensGo (some (c :: acc)) rest
      else findTokensGo none rest

/-- Model of `placeholder_pattern.findall(text)`. -/
def findAll (s : String) : List String :=
  findTokensGo none s.data

/-- Model of the Python substring test `"¶" in text`; the needle is a
single character, so this is character membership. -/
def containsPilcrow (s : String) : Bool :=
  s.data.contains '¶'

/-- Model of Python `sorted` on a list of strings: ascending sort by
code-point lexicographic order.  On a total antisymmetric order equal
elements are identical, so any sorting algorithm returns the same list;
insertion sort is used because it evaluates by kernel reduction. -/
def sortStrings (l : List String) : List String :=
  List.insertionSort (fun a b => a ≤ b) l

/-- Python dict with string keys, as an association list in insertion
order. -/
abbrev Dict (V : Type) : Type := List (String × V)

/-- Python dict assignment `d[k] = v`: replace in place when the key is
present, append otherwise. -/
def dictInsert {V : Type} (d : Dict V) (k : String) (v : V) : Dict V :=
  match d with
  | [] => [(k, v)]
  | (k', v') :: rest =>
    if k' = k then (k, v) :: rest else (k', v') :: dictInsert rest k v

/-- Python dict lookup `d[k]` / `k in d`: the first (and, for dicts built
by `dictInsert`, only) binding of the key. -/
def dictGet? {V : Type} (d : Dict V) (k : String) : Option V :=
  match d with
  | [] => none
  | (k', v) :: rest => if k' = k then some v else dictGet? rest k

/-- Membership test `k in d`. -/
def dictHasKey {V : Type} (d : Dict V) (k : String) : Bool :=
  (dictGet? d k).isSome

/-- Keys of a dict, in insertion order. -/
def dictKeys {V : Type} (d : Dict V) : List String :=
  d.map Prod.fst

/-- Raw JSON value of one message inside a locale file: the required
`message` field and, optionally, the keys of the `placeholders`
sub-mapping. -/
structure MessageJson where
  message : String
  placeholders : Option (List String)
deriving DecidableEq, Repr

/-- Parsed catalog entry: `{"text": ..., "placeholders": [...]}`. -/
structure Message where
  text : String
  placeholders : List String
deriving DecidableEq, Repr

/-- Contents of one locale directory: the `*.json` files directly inside
it, each as its relative file name paired with the parsed top-level
mapping from message id to message data, in `glob` enumeration order. -/
structure LocaleDir where
  files : List (String × List (String × MessageJson))
deriving DecidableEq, Repr

/-- Contents of the base `locales_path` directory: immediate
subdirectories paired with their contents, in `os.walk` enumeration
order. -/
structure BasePath where
  dirs : List (String × LocaleDir)
deriving DecidableEq, Repr

/-- Subdirectory lookup, modelling `os.path.isdir(join(base, name))` and
the subsequent reads from that directory. -/
def getDir? (base : BasePath) (name : String) : Option LocaleDir :=
  dictGet? base.dirs name

/-- Model of `parseJsonFiles`: starting from the dict `messages`, store
every message of every file of the locale directory under the composite
key `<relative file name>:<message id>`; `text` is the `message` field
and `placeholders` the key list of the optional sub-mapping, empty when
absent. -/
def parseJsonFiles (messages : Dict Message) (dir : LocaleDir) : Dict Message :=
  dir.files.foldl
    (fun ms fileEntry =>
      fileEntry.2.foldl
        (fun ms' entry =>
          dictInsert ms' (fileEntry.1 ++ (":") ++ entry.1)
            { text := entry.2.message
              placeholders := entry.2.placeholders.getD [] })
        ms)
    messages

/-- Mapping loaded from `check_exceptions.json` under its `"placeholders"`
member: locale code, to exempted message key, to an ignored value. -/
abbrev ExcMap : Type := Dict (Dict Unit)

/-- Runtime value of the Python variable `exceptions`: either the parsed
companion file (which carries a `"placeholders"` member) or the literal
`{}` assigned when the file is missing. -/
inductive ExcDict : Type
  | withPlaceholders (m : ExcMap)
  | emptyDict
deriving DecidableEq

/-- Evaluation of `exceptions["placeholders"]`: on the empty dict this is
an uncaught `KeyError`. -/
def ExcDict.getPlaceholders : ExcDict → Except String ExcMap
  | .withPlaceholders m => .ok m
  | .emptyDict => .error ("KeyError: placeholders")

/-- Error record appended to the `errors` list, kept structured; `render`
produces the exact f-string of the script. -/
inductive ErrRec : Type
  | placeholderMismatch (locale messageId text : String)
  | pilcrow (locale messageId text : String)
deriving DecidableEq, Repr

/-- Message key an error record refers to. -/
def ErrRec.key : ErrRec → String
  | .placeholderMismatch _ m _ => m
  | .pilcrow _ m _ => m

/-- Rendering of an error record as the f-string appended by the
script. -/
def ErrRec.render : ErrRec → String
  | .placeholderMismatch l m t =>
    l ++ (":\n  Placeholder mismatch in ") ++ m ++ ("\n  Text: ") ++ t
  | .pilcrow l m t =>
    l ++ (":\n  '¶' in ") ++ m ++ ("\n  Text: ") ++ t

/-- Model of `"\n".join(errors)`. -/
def joinLines : List String → String
  | [] => ""
  | [a] => a
  | a :: b :: rest => a ++ ("\n") ++ joinLines (b :: rest)

/-- Model of the `# Check for missing placeholders` loop body for one
locale: iterate the reference messages that declare placeholders; skip
untranslated keys; evaluate `exceptions["placeholders"]` (which may raise)
and skip exempted keys; otherwise extract the tokens of the translation
and append a mismatch record exactly when the sorted token list differs
from the sorted declared list. -/
def placeholderLoop (excd : ExcDict) (locale : String) (localeMessages : Dict Message) :
    List (String × List String) → Except String (List ErrRec)
  | [] => .ok []
  | (messageId, placeholders) :: rest =>
    match dictGet? localeMessages messageId with
    | none => placeholderLoop excd locale localeMessages rest
    | some msg =>
      match excd.getPlaceholders with
      | .error e => .error e
      | .ok excMap =>
        if dictHasKey ((dictGet? excMap locale).getD []) messageId then
          placeholderLoop excd locale localeMessages rest
        else if sortStrings placeholders ≠ sortStrings (findAll msg.text) then
          (placeholderLoop excd locale localeMessages rest).map
            (fun errs => ErrRec.placeholderMismatch locale messageId msg.text :: errs)
        else
          placeholderLoop excd locale localeMessages rest

/-- Model of the `# Check for pilcrows` loop for one locale: iterate the
locale's catalog and append a pilcrow record for every text containing
the pilcrow character. -/
def pilcrowLoop (locale : String) : Dict Message → List ErrRec
  | [] => []
  | (messageId, msg) :: rest =>
    if containsPilcrow msg.text then
      ErrRec.pilcrow locale messageId msg.text :: pilcrowLoop locale rest
    else
      pilcrowLoop locale rest

/-- Model of the outer `for locale in locales` loop: parse the locale's
catalog, run the placeholder check (which may raise) then the pilcrow
check, and concatenate the collected errors across locales in order. -/
def localeLoop (base : BasePath) (excd : ExcDict)
    (mwp : List (String × List String)) : List String → Except String (List ErrRec)
  | [] => .ok []
  | locale :: rest =>
    let localeMessages := parseJsonFiles [] ((getDir? base locale).getD ⟨[]⟩)
    match placeholderLoop excd locale localeMessages mwp with
    | .error e => .error e
    | .ok pErrs =>
      match localeLoop base excd mwp rest with
      | .error e => .error e
      | .ok restErrs => .ok (pErrs ++ pilcrowLoop locale localeMessages ++ restErrs)

/-- Model of Python `f.startswith(".")` with a one-character prefix: the
first character of the name is a dot. -/
def startsWithDot (f : String) : Bool :=
  match f.data with
  | [] => false
  | c :: _ => c == '.'

/-- Model of the `locales` computation: the immediate subdirectories of
the base path, hidden directories and the reference locale excluded, then
`locales.sort()`. -/
def localesOf (base : BasePath) (refLocale : String) : List String :=
  sortStrings
    ((base.dirs.map Prod.fst).filter
      (fun f => !(startsWithDot f) && f ≠ refLocale))

/-- Model of the `messages_with_placeholders` dict comprehension: the
reference entries whose placeholder list is non-empty, key paired with
that list, in catalog order. -/
def messagesWithPlaceholders (reference : Dict Message) : List (String × List String) :=
  (reference.filter (fun kv => !kv.2.placeholders.isEmpty)).map
    (fun kv => (kv.1, kv.2.placeholders))

/-- Outcome of a run of the script: `fatalExit` models `sys.exit(msg)`
(message on stderr, status 1), `uncaught` an uncaught Python exception
(traceback, status 1), `finished` a run reaching the final report with
the lines it printed and its exit status. -/
inductive RunResult : Type
  | fatalExit (msg : String)
  | uncaught (msg : String)
  | finished (output : List String) (exitCode : Nat)
deriving DecidableEq, Repr

/-- Exit status of the process for each outcome. -/
def RunResult.exitCode : RunResult → Nat
  | .fatalExit _ => 1
  | .uncaught _ => 1
  | .finished _ c => c

/-- Model of the final report: on a non-empty error list print `ERRORS:`
and the joined rendered records and exit 1, otherwise print the success
line and return (exit 0). `warn` holds lines printed earlier in the
run. -/
def report (warn : List String) (errors : List ErrRec) : RunResult :=
  if !errors.isEmpty then
    .finished (warn ++ [("ERRORS:"), joinLines (errors.map ErrRec.render)]) 1
  else
    .finished (warn ++ [("No errors found.")]) 0

/-- Model of `main`: `base` is the resolved `locales_path` with its
subdirectories, `refLocale` the `--ref` argument, and `excFile` the
parsed `"placeholders"` member of `check_exceptions.json`, `none` when
the file is absent (the printed warning's absolute path is abstracted to
the file's base name). -/
def main (base : BasePath) (refLocale : String) (excFile : Option ExcMap) : RunResult :=
  match getDir? base refLocale with
  | none =>
    .fatalExit (("The folder for the reference locale (") ++ refLocale
      ++ (") does not exist"))
  | some refDir =>
    let referenceMessages := parseJsonFiles [] refDir
    let warn : List String :=
      match excFile with
      | some _ => []
      | none => [("check_exceptions.json is missing")]
    let excd : ExcDict :=
      match excFile with
      | some m => ExcDict.withPlaceholders m
      | none => ExcDict.emptyDict
    let locales := localesOf base refLocale
    let mwp := messagesWithPlaceholders referenceMessages
    match localeLoop base excd mwp locales with
    | .error e => .uncaught e
    | .ok errors => report warn errors

/-! ### Dictionary lemmas -/

/-- Flattened assignment sequence performed by `parseJsonFiles` over a
list of files: every (composite key, parsed message) pair in the order
the script assigns them into the dict. -/
def catalogEntries : List (String × List (String × MessageJson)) → List (String × Message)
  | [] => []
  | fe :: rest =>
    fe.2.map
      (fun entry =>
        (fe.1 ++ (":") ++ entry.1,
          { text := entry.2.message
            placeholders := entry.2.placeholders.getD [] }))
      ++ catalogEntries rest

/-- Sequential dict assignment of a list of key-value pairs, oldest
first. -/
def assignList {V : Type} (l : List (String × V)) (d : Dict V) : Dict V :=
  l.foldl (fun d' kv => dictInsert d' kv.1 kv.2) d

/-- Value of the chronologically last assignment to a key in an
assignment sequence, if any. -/
def lastAssignment? {V : Type} : List (String × V) → String → Option V
  | [], _ => none
  | kv :: rest, k =>
    match lastAssignment? rest k with
    | some v => some v
    | none => if kv.1 = k then some kv.2 else none

theorem dictGet?_insert {V : Type} (d : Dict V) (k k' : String) (v : V) :
    dictGet? (dictInsert d k v) k' = if k = k' then some v else dictGet? d k' := by
  induction d with
  | nil => simp [dictInsert, dictGet?]
  | cons kv rest ih =>
    obtain ⟨k₀, v₀⟩ := kv
    by_cases h : k₀ = k
    · subst h
      by_cases h' : k₀ = k' <;> simp [dictInsert, dictGet?, h']
    · by_cases h' : k₀ = k'
      · subst h'
        simp [dictInsert, dictGet?, h, Ne.symm h]
      · simp [dictInsert, dictGet?, h, h', ih]

theorem mem_dictKeys_insert {V : Type} (d : Dict V) (k a : String) (v : V) :
    a ∈ dictKeys (dictInsert d k v) ↔ a ∈ dictKeys d ∨ a = k := by
  induction d with
  | nil => simp [dictInsert, dictKeys]
  | cons kv rest ih =>
    obtain ⟨k₀, v₀⟩ := kv
    by_cases h : k₀ = k
    · subst h
      simp [dictInsert, dictKeys]
      tauto
    · simp [dictInsert, dictKeys, h] at ih ⊢
      tauto

theorem nodup_dictKeys_insert {V : Type} (d : Dict V) (k : String) (v : V) :
    (dictKeys d).Nodup → (dictKeys (dictInsert d k v)).Nodup := by
  induction d with
  | nil =>
    intro _
    simp [dictInsert, dictKeys]
  | cons kv rest ih =>
    intro h
    obtain ⟨k₀, v₀⟩ := kv
    rw [show dictKeys ((k₀, v₀) :: rest) = k₀ :: dictKeys rest from rfl,
      List.nodup_cons] at h
    by_cases hk : k₀ = k
    · subst hk
      rw [show dictInsert ((k₀, v₀) :: rest) k₀ v = (k₀, v) :: rest from by
        simp [dictInsert]]
      rw [show dictKeys ((k₀, v) :: rest) = k₀ :: dictKeys rest from rfl,
        List.nodup_cons]
      exact h
    · rw [show dictInsert ((k₀, v₀) :: rest) k v = (k₀, v₀) :: dictInsert rest k v from by
        simp [dictInsert, hk]]
      rw [show dictKeys ((k₀, v₀) :: dictInsert rest k v)
          = k₀ :: dictKeys (dictInsert rest k v) from rfl,
        List.nodup_cons]
      constructor
      · intro hmem
        rcases (mem_dictKeys_insert rest k k₀ v).mp hmem with h1 | h1
        · exact h.1 h1
        · exact hk h1
      · exact ih h.2

theorem nodup_dictKeys_assignList {V : Type} (l : List (String × V)) (init : Dict V)
    (h : (dictKeys init).Nodup) : (dictKeys (assignList l init)).Nodup := by
  induction l generalizing init with
  | nil => exact h
  | cons kv rest ih =>
    exact ih (dictInsert init kv.1 kv.2) (nodup_dictKeys_insert init kv.1 kv.2 h)

theorem dictGet?_assignList {V : Type} (l : List (String × V)) (init : Dict V) (k : String) :
    dictGet? (assignList l init) k =
      match lastAssignment? l k with
      | some v => some v
      | none => dictGet? init k := by
  induction l generalizing init with
  | nil => simp [assignList, lastAssignment?]
  | cons kv rest ih =>
    show dictGet? (assignList rest (dictInsert init kv.1 kv.2)) k = _
    rw [ih]
    rcases hr : lastAssignment? rest k with _ | v
    · simp only [lastAssignment?, hr, dictGet?_insert]
      by_cases hkv : kv.1 = k <;> simp [hkv]
    · simp only [lastAssignment?, hr]

theorem dictGet?_of_mem_nodup {V : Type} (d : Dict V) (k : String) (v : V) :
    (dictKeys d).Nodup → (k, v) ∈ d → dictGet? d k = some v := by
  induction d with
  | nil =>
    intro _ hm
    simp at hm
  | cons kv rest ih =>
    intro hn hm
    obtain ⟨k₀, v₀⟩ := kv
    rw [show dictKeys ((k₀, v₀) :: rest) = k₀ :: dictKeys rest from rfl,
      List.nodup_cons] at hn
    rcases List.mem_cons.mp hm with hm | hm
    · injection hm with h1 h2
      subst h1
      subst h2
      simp [dictGet?]
    · have hkmem : k ∈ dictKeys rest := List.mem_map_of_mem Prod.fst hm
      have hk : k₀ ≠ k := by
        intro he
        rw [he] at hn
        exact hn.1 hkmem
      simp [dictGet?, hk, ih hn.2 hm]

theorem parseJsonFiles_eq_assignList (files : List (String × List (String × MessageJson)))
    (init : Dict Message) :
    parseJsonFiles init ⟨files⟩ = assignList (catalogEntries files) init := by
  induction files generalizing init with
  | nil => rfl
  | cons fe rest ih =>
    show parseJsonFiles (fe.2.foldl _ init) ⟨rest⟩ = _
    rw [ih, catalogEntries]
    simp only [assignList, List.foldl_append, List.foldl_map]

/-- C9: within a catalog built by `parseJsonFiles` from an empty dict,
message keys are unique, and the value found for a key is the one stored
by the chronologically last assignment to that key — later files (and
later entries) silently overwrite earlier ones, with no duplicate-key
detection. -/
theorem c9_catalog_keys_unique_last_wins (dir : LocaleDir) (k : String) :
    (dictKeys (parseJsonFiles [] dir)).Nodup ∧
    dictGet? (parseJsonFiles [] dir) k = lastAssignment? (catalogEntries dir.files) k := by
  obtain ⟨files⟩ := dir
  constructor
  · rw [parseJsonFiles_eq_assignList]
    exact nodup_dictKeys_assignList _ [] (by simp [dictKeys])
  · rw [parseJsonFiles_eq_assignList, dictGet?_assignList]
    rcases lastAssignment? (catalogEntries files) k with _ | v <;> rfl

/-! ### Placeholder check as specified -/

/-- Specification-side restatement of the placeholder matcher (spec
§4.4): for every reference message that declares at least one placeholder
and every target locale whose catalog contains that message key and whose
exception set does not list it, extract the `$name$` tokens of the
translated text and compare them to the declared placeholder list by
sorted-list equality; exactly on inequality produce an error record with
the locale code, the message key and the translated text. -/
def placeholderCheckSpec (excMap : ExcMap) (locale : String) (cat : Dict Message)
    (mwp : List (String × List String)) : List ErrRec :=
  mwp.filterMap
    (fun kv =>
      match dictGet? cat kv.1 with
      | none => none
      | some msg =>
        if dictHasKey ((dictGet? excMap locale).getD []) kv.1 then none
        else if sortStrings kv.2 ≠ sortStrings (findAll msg.text) then
          some (ErrRec.placeholderMismatch locale kv.1 msg.text)
        else none)

theorem placeholderLoop_eq_spec (excMap : ExcMap) (locale : String) (cat : Dict Message)
    (mwp : List (String × List String)) :
    placeholderLoop (ExcDict.withPlaceholders excMap) locale cat mwp
      = .ok (placeholderCheckSpec excMap locale cat mwp) := by
  induction mwp with
  | nil => rfl
  | cons kv rest ih =>
    obtain ⟨messageId, placeholders⟩ := kv
    rcases h : dictGet? cat messageId with _ | msg
    · simpa [placeholderLoop, placeholderCheckSpec, List.filterMap_cons, h] using ih
    · by_cases hexc : dictHasKey ((dictGet? excMap locale).getD []) messageId
      · simpa [placeholderLoop, placeholderCheckSpec, List.filterMap_cons, h,
          ExcDict.getPlaceholders, hexc] using ih
      · by_cases hsort : sortStrings placeholders = sortStrings (findAll msg.text)
        · simpa [placeholderLoop, placeholderCheckSpec, List.filterMap_cons, h,
            ExcDict.getPlaceholders, hexc, hsort] using ih
        · simp [placeholderLoop, placeholderCheckSpec, List.filterMap_cons, h,
            ExcDict.getPlaceholders, hexc, hsort, ih, Except.map]

/-- C2: with the exceptions file loaded, the placeholder loop of the
script succeeds and produces exactly the records the specification
describes — for every reference message with declared placeholders whose
key the target catalog contains and the exception set does not list, the
tokens extracted by the pattern from the translated text are compared to
the declared list by sorted-list equality, and exactly on inequality an
error record with the locale, the message key and the translated text is
appended. -/
theorem c2_placeholder_check_refines_spec (excMap : ExcMap) (locale : String)
    (cat : Dict Message) (mwp : List (String × List String)) :
    placeholderLoop (ExcDict.withPlaceholders excMap) locale cat mwp
      = .ok (placeholderCheckSpec excMap locale cat mwp) :=
  placeholderLoop_eq_spec excMap locale cat mwp

/-! ### Pilcrow check -/

/-- Recogniser for a pilcrow error record of a given locale and message
key, any text. -/
def isPilcrowFor (locale messageId : String) : ErrRec → Bool
  | ErrRec.pilcrow l m _ => l == locale && m == messageId
  | _ => false

theorem pilcrowLoop_countP_not_mem (locale mid : String) (cat : Dict Message)
    (h : mid ∉ dictKeys cat) :
    (pilcrowLoop locale cat).countP (isPilcrowFor locale mid) = 0 := by
  induction cat with
  | nil => rfl
  | cons kv rest ih =>
    obtain ⟨k, m⟩ := kv
    rw [show dictKeys ((k, m) :: rest) = k :: dictKeys rest from rfl,
      List.mem_cons] at h
    push_neg at h
    have hk : (k == mid) = false := by
      simpa using fun he => h.1 he.symm
    by_cases hc : containsPilcrow m.text
    · simp [pilcrowLoop, hc, List.countP_cons, isPilcrowFor, hk, ih h.2]
    · simp [pilcrowLoop, hc, ih h.2]

theorem pilcrowLoop_countP (locale : String) (cat : Dict Message) (mid : String)
    (msg : Message) :
    (dictKeys cat).Nodup → (mid, msg) ∈ cat →
    (pilcrowLoop locale cat).countP (isPilcrowFor locale mid)
      = if containsPilcrow msg.text then 1 else 0 := by
  induction cat with
  | nil =>
    intro _ hm
    simp at hm
  | cons kv rest ih =>
    intro hn hm
    obtain ⟨k, m⟩ := kv
    rw [show dictKeys ((k, m) :: rest) = k :: dictKeys rest from rfl,
      List.nodup_cons] at hn
    rcases List.mem_cons.mp hm with hm | hm
    · injection hm with h1 h2
      subst h1
      subst h2
      have hz := pilcrowLoop_countP_not_mem locale mid rest hn.1
      by_cases hc : containsPilcrow msg.text
      · simp [pilcrowLoop, hc, List.countP_cons, isPilcrowFor, hz]
      · simp [pilcrowLoop, hc, hz]
    · have hkmem : mid ∈ dictKeys rest := List.mem_map_of_mem Prod.fst hm
      have hk : (k == mid) = false := by
        simp only [beq_eq_false_iff_ne, ne_eq]
        intro he
        rw [he] at hn
        exact hn.1 hkmem
      by_cases hc : containsPilcrow m.text
      · simp [pilcrowLoop, hc, List.countP_cons, isPilcrowFor, hk, ih hn.2 hm]
      · simp [pilcrowLoop, hc, ih hn.2 hm]

theorem pilcrowLoop_mem_of (locale : String) (cat : Dict Message) (mid : String)
    (msg : Message) (hm : (mid, msg) ∈ cat) (hc : containsPilcrow msg.text = true) :
    ErrRec.pilcrow locale mid msg.text ∈ pilcrowLoop locale cat := by
  induction cat with
  | nil => simp at hm
  | cons kv rest ih =>
    obtain ⟨k, m⟩ := kv
    rcases List.mem_cons.mp hm with hm | hm
    · injection hm with h1 h2
      subst h1
      subst h2
      simp [pilcrowLoop, hc]
    · by_cases hck : containsPilcrow m.text <;> simp [pilcrowLoop, hck, ih hm]

/-- C3: for every message of a target locale's catalog — the pilcrow
check consults neither the reference catalog nor any placeholder data —
the pilcrow loop appends exactly one pilcrow record for the (locale,
message key) pair when the text contains the pilcrow character (and that
record carries the message's text), and none when it does not. -/
theorem c3_pilcrow_exactly_once (locale : String) (cat : Dict Message) (mid : String)
    (msg : Message) (hn : (dictKeys cat).Nodup) (hm : (mid, msg) ∈ cat) :
    (pilcrowLoop locale cat).countP (isPilcrowFor locale mid)
        = (if containsPilcrow msg.text then 1 else 0) ∧
    (containsPilcrow msg.text = true →
      ErrRec.pilcrow locale mid msg.text ∈ pilcrowLoop locale cat) :=
  ⟨pilcrowLoop_countP locale cat mid msg hn hm,
    fun hc => pilcrowLoop_mem_of locale cat mid msg hm hc⟩

/-- Every record of `placeholderCheckSpec` arises from an `mwp` entry
that is translated, not excepted, and mismatching. -/
theorem placeholderCheckSpec_mem (excMap : ExcMap) (locale : String) (cat : Dict Message)
    (mwp : List (String × List String)) (e : ErrRec)
    (he : e ∈ placeholderCheckSpec excMap locale cat mwp) :
    ∃ kv ∈ mwp, ∃ msg, dictGet? cat kv.1 = some msg ∧
      dictHasKey ((dictGet? excMap locale).getD []) kv.1 = false ∧
      sortStrings kv.2 ≠ sortStrings (findAll msg.text) ∧
      e = ErrRec.placeholderMismatch locale kv.1 msg.text := by
  rcases List.mem_filterMap.mp he with ⟨kv, hkv, hf⟩
  rcases h : dictGet? cat kv.1 with _ | msg
  · rw [h] at hf
    simp at hf
  · rw [h] at hf
    by_cases hexc : dictHasKey ((dictGet? excMap locale).getD []) kv.1
    · simp [hexc] at hf
    · by_cases hsort : sortStrings kv.2 = sortStrings (findAll msg.text)
      · simp [hexc, hsort] at hf
      · simp only [hexc, hsort] at hf
        refine ⟨kv, hkv, msg, h, by simp [hexc], hsort, ?_⟩
        simp at hf
        exact hf.2.symm

/-- C4: a message key listed under the locale in the exceptions file is
never reported for placeholder mismatch, whatever its translation text,
yet the same catalog entry is still checked for the pilcrow character
and reported exactly when its text contains one. -/
theorem c4_exception_suppressed_but_pilcrow_checked (excMap : ExcMap) (locale mid : String)
    (cat : Dict Message) (mwp : List (String × List String)) (msg : Message)
    (hExc : dictHasKey ((dictGet? excMap locale).getD []) mid = true)
    (hn : (dictKeys cat).Nodup) (hm : (mid, msg) ∈ cat) :
    (∀ errs, placeholderLoop (ExcDict.withPlaceholders excMap) locale cat mwp = .ok errs →
      ∀ text, ErrRec.placeholderMismatch locale mid text ∉ errs) ∧
    (pilcrowLoop locale cat).countP (isPilcrowFor locale mid)
      = if containsPilcrow msg.text then 1 else 0 := by
  constructor
  · intro errs hok text hmem
    rw [placeholderLoop_eq_spec] at hok
    have herrs : errs = placeholderCheckSpec excMap locale cat mwp :=
      (Except.ok.inj hok).symm
    subst herrs
    rcases placeholderCheckSpec_mem excMap locale cat mwp _ hmem with
      ⟨kv, _, m, _, hfalse, _, heq⟩
    injection heq with ha hb hc
    rw [← hb] at hfalse
    rw [hExc] at hfalse
    exact Bool.true_eq_false.mp hfalse
  · exact pilcrowLoop_countP locale cat mid msg hn hm

/-- Every record produced by the placeholder loop refers to a message key
that is translated in the target catalog and comes from the
`messages_with_placeholders` list. -/
theorem placeholderLoop_mem (excd : ExcDict) (locale : String) (cat : Dict Message) :
    ∀ (mwp : List (String × List String)) (errs : List ErrRec),
      placeholderLoop excd locale cat mwp = .ok errs →
      ∀ e ∈ errs,
        (dictGet? cat (ErrRec.key e)).isSome = true ∧ ErrRec.key e ∈ mwp.map Prod.fst := by
  intro mwp
  induction mwp with
  | nil =>
    intro errs hok e he
    have : ([] : List ErrRec) = errs := Except.ok.inj hok
    subst this
    simp at he
  | cons kv rest ih =>
    intro errs hok e he
    obtain ⟨messageId, placeholders⟩ := kv
    rcases h : dictGet? cat messageId with _ | msg
    · rw [show placeholderLoop excd locale cat ((messageId, placeholders) :: rest)
          = placeholderLoop excd locale cat rest from by
        simp [placeholderLoop, h]] at hok
      rcases ih errs hok e he with ⟨h1, h2⟩
      exact ⟨h1, by simpa using Or.inr h2⟩
    · rcases hg : excd.getPlaceholders with eMsg | excMap
      · rw [show placeholderLoop excd locale cat ((messageId, placeholders) :: rest)
            = .error eMsg from by simp [placeholderLoop, h, hg]] at hok
        simp at hok
      · by_cases hexc : dictHasKey ((dictGet? excMap locale).getD []) messageId
        · rw [show placeholderLoop excd locale cat ((messageId, placeholders) :: rest)
              = placeholderLoop excd locale cat rest from by
            simp [placeholderLoop, h, hg, hexc]] at hok
          rcases ih errs hok e he with ⟨h1, h2⟩
          exact ⟨h1, by simpa using Or.inr h2⟩
        · by_cases hsort : sortStrings placeholders = sortStrings (findAll msg.text)
          · rw [show placeholderLoop excd locale cat ((messageId, placeholders) :: rest)
                = placeholderLoop excd locale cat rest from by
              simp [placeholderLoop, h, hg, hexc, hsort]] at hok
            rcases ih errs hok e he with ⟨h1, h2⟩
            exact ⟨h1, by simpa using Or.inr h2⟩
          · rw [show placeholderLoop excd locale cat ((messageId, placeholders) :: rest)
                = (placeholderLoop excd locale cat rest).map
                    (fun errs => ErrRec.placeholderMismatch locale messageId msg.text :: errs)
                  from by simp [placeholderLoop, h, hg, hexc, hsort]] at hok
            rcases hrest : placeholderLoop excd locale cat rest with eMsg | l
            · rw [hrest] at hok
              simp [Except.map] at hok
            · rw [hrest] at hok
              simp only [Except.map] at hok
              have : ErrRec.placeholderMismatch locale messageId msg.text :: l = errs :=
                Except.ok.inj hok
              subst this
              rcases List.mem_cons.mp he with he | he
              · subst he
                exact ⟨by simp [ErrRec.key, h], by simp [ErrRec.key]⟩
              · rcases ih l hrest e he with ⟨h1, h2⟩
                exact ⟨h1, by simpa using Or.inr h2⟩

/-- C7: a reference message whose key is untranslated in the target
locale's catalog produces no error record of any kind in the placeholder
loop — every produced record refers to a key the catalog contains. -/
theorem c7_untranslated_silently_skipped (excd : ExcDict) (locale : String)
    (cat : Dict Message) (mwp : List (String × List String)) (mid : String)
    (h : dictGet? cat mid = none) (errs : List ErrRec)
    (hok : placeholderLoop excd locale cat mwp = .ok errs) :
    ∀ e ∈ errs, ErrRec.key e ≠ mid := by
  intro e he heq
  have hs := (placeholderLoop_mem excd locale cat mwp errs hok e he).1
  rw [heq, h] at hs
  simp at hs

/-- Keys of `messages_with_placeholders` all carry a non-empty declared
placeholder list in the reference catalog. -/
theorem mem_messagesWithPlaceholders_keys (reference : Dict Message) (mid : String)
    (h : mid ∈ (messagesWithPlaceholders reference).map Prod.fst) :
    ∃ v, (mid, v) ∈ reference ∧ v.placeholders ≠ [] := by
  rcases List.mem_map.mp h with ⟨p, hp, hfst⟩
  rcases List.mem_map.mp hp with ⟨kv, hkv, hmap⟩
  rcases List.mem_filter.mp hkv with ⟨hmem, hne⟩
  refine ⟨kv.2, ?_, ?_⟩
  · have : kv.1 = mid := by
      rw [← hfst, ← hmap]
    rw [← this]
    exact hmem
  · intro hempty
    rw [show kv.2.placeholders.isEmpty = true from by simp [hempty]] at hne
    simp at hne

/-- C10: a reference message whose declared placeholder list is empty
never enters `messages_with_placeholders`, so the placeholder loop never
produces a mismatch record for its key, whatever tokens the translated
text contains. -/
theorem c10_no_placeholders_never_reported (reference : Dict Message) (mid : String)
    (v : Message) (hn : (dictKeys reference).Nodup)
    (hv : dictGet? reference mid = some v) (hempty : v.placeholders = []) :
    ∀ (excd : ExcDict) (locale : String) (cat : Dict Message) (errs : List ErrRec),
      placeholderLoop excd locale cat (messagesWithPlaceholders reference) = .ok errs →
      ∀ text, ErrRec.placeholderMismatch locale mid text ∉ errs := by
  intro excd locale cat errs hok text hmem
  have hkey := (placeholderLoop_mem excd locale cat
    (messagesWithPlaceholders reference) errs hok _ hmem).2
  rcases mem_messagesWithPlaceholders_keys reference mid hkey with ⟨w, hw, hwne⟩
  have : dictGet? reference mid = some w := dictGet?_of_mem_nodup reference mid w hn hw
  rw [hv] at this
  exact hwne (by rw [← Option.some.inj this]; exact hempty)

/-! ### Report, discovery, and the missing-exceptions crash -/

theorem mem_joinLines (s : String) (l : List String) (h : s ∈ l) :
    ∃ pre post, joinLines l = pre ++ s ++ post := by
  induction l with
  | nil => simp at h
  | cons a rest ih =>
    rcases rest with _ | ⟨b, rest'⟩
    · have hs : s = a := by simpa using h
      subst hs
      exact ⟨(""), (""), by simp [joinLines]⟩
    · rcases List.mem_cons.mp h with he | hmem
      · subst he
        refine ⟨(""), ("\n") ++ joinLines (b :: rest'), ?_⟩
        rw [show joinLines (s :: b :: rest') = s ++ ("\n") ++ joinLines (b :: rest') from rfl]
        simp [String.append_assoc]
      · rcases ih hmem with ⟨pre, post, hj⟩
        refine ⟨a ++ ("\n") ++ pre, post, ?_⟩
        rw [show joinLines (a :: b :: rest') = a ++ ("\n") ++ joinLines (b :: rest') from rfl]
        rw [hj]
        simp [String.append_assoc]

/-- C5: on a non-empty error list the final report prints the header
line and the joined rendered records — every collected record appears in
the printed text — and exits with status 1; on an empty list it prints
the success line and exits with status 0. -/
theorem c5_report_and_exit (warn : List String) (errors : List ErrRec) :
    (errors = [] →
      report warn errors = RunResult.finished (warn ++ [("No errors found.")]) 0) ∧
    (errors ≠ [] →
      report warn errors
          = RunResult.finished
              (warn ++ [("ERRORS:"), joinLines (errors.map ErrRec.render)]) 1 ∧
        ∀ e ∈ errors, ∃ pre post,
          joinLines (errors.map ErrRec.render) = pre ++ ErrRec.render e ++ post) := by
  constructor
  · intro he
    subst he
    rfl
  · intro hne
    have hne' : errors.isEmpty = false := by simpa using hne
    constructor
    · simp [report, hne']
    · intro e he
      exact mem_joinLines _ _ (List.mem_map_of_mem ErrRec.render he)

/-- C6: when the reference locale's subdirectory is absent the run ends
immediately in `sys.exit` with status 1 and a message naming the missing
reference locale, whatever the other directories and the exceptions file
hold. -/
theorem c6_missing_reference_fails_fast (base : BasePath) (refLocale : String)
    (excFile : Option ExcMap) (h : getDir? base refLocale = none) :
    main base refLocale excFile
        = RunResult.fatalExit (("The folder for the reference locale (")
            ++ refLocale ++ (") does not exist")) ∧
    (main base refLocale excFile).exitCode = 1 ∧
    ∃ pre post,
      ("The folder for the reference locale (") ++ refLocale ++ (") does not exist")
        = pre ++ refLocale ++ post := by
  have hm : main base refLocale excFile
      = RunResult.fatalExit (("The folder for the reference locale (")
          ++ refLocale ++ (") does not exist")) := by
    simp only [main, h]
  exact ⟨hm, by rw [hm]; rfl, ⟨_, _, rfl⟩⟩

/-- C8: the locale list is sorted, and is exactly the immediate
subdirectories of the base path without hidden names and without the
reference locale. -/
theorem c8_locales_sorted_and_exact (base : BasePath) (refLocale : String) :
    (localesOf base refLocale).Pairwise (fun a b => a ≤ b) ∧
    (localesOf base refLocale).Perm
      ((base.dirs.map Prod.fst).filter
        (fun f => !(startsWithDot f) && f ≠ refLocale)) := by
  constructor
  · exact List.sorted_insertionSort (fun a b => a ≤ b)
      ((base.dirs.map Prod.fst).filter (fun f => !(startsWithDot f) && f ≠ refLocale))
  · exact List.perm_insertionSort (fun a b => a ≤ b)
      ((base.dirs.map Prod.fst).filter (fun f => !(startsWithDot f) && f ≠ refLocale))

/-- Reference directory of the C1 failing input: one file, one message,
one declared placeholder. -/
def c1RefDir : LocaleDir :=
  ⟨[(("greeting.json"), [(("hello"),
    { message := ("Hello, $name$!"), placeholders := some [("name")] })])]⟩

/-- Target directory of the C1 failing input: the same message key,
translated. -/
def c1FrDir : LocaleDir :=
  ⟨[(("greeting.json"), [(("hello"),
    { message := ("Bonjour, $nom$!"), placeholders := none })])]⟩

/-- Base path of the C1 failing input. -/
def c1Base : BasePath := ⟨[(("en"), c1RefDir), (("fr"), c1FrDir)]⟩

/-- C1: with the exceptions file absent the script assigns `{}` to
`exceptions`, so the first translated reference message with declared
placeholders makes `exceptions["placeholders"]` raise an uncaught
`KeyError` — the run aborts instead of completing all locales
non-fatally as specified. -/
theorem c1_missing_exceptions_file_crashes :
    main c1Base ("en") none = RunResult.uncaught ("KeyError: placeholders") := by
  rfl

/-! ### Witnesses -/

theorem c3_pilcrow_exactly_once_witness :
    (pilcrowLoop ("de") [(("a.json:k"), { text := ("x¶"), placeholders := [] })]).countP
        (isPilcrowFor ("de") ("a.json:k"))
        = (if containsPilcrow ("x¶") then 1 else 0) ∧
    (containsPilcrow ("x¶") = true →
      ErrRec.pilcrow ("de") ("a.json:k") ("x¶")
        ∈ pilcrowLoop ("de") [(("a.json:k"), { text := ("x¶"), placeholders := [] })]) :=
  c3_pilcrow_exactly_once ("de") [(("a.json:k"), { text := ("x¶"), placeholders := [] })]
    ("a.json:k") { text := ("x¶"), placeholders := [] } (by decide) (by decide)

theorem c4_exception_suppressed_but_pilcrow_checked_witness :
    (∀ errs,
      placeholderLoop (ExcDict.withPlaceholders [(("fr"), [(("a.json:k"), ())])]) ("fr")
          [(("a.json:k"), { text := ("$x$¶"), placeholders := [] })]
          [(("a.json:k"), [("name")])] = .ok errs →
      ∀ text, ErrRec.placeholderMismatch ("fr") ("a.json:k") text ∉ errs) ∧
    (pilcrowLoop ("fr") [(("a.json:k"), { text := ("$x$¶"), placeholders := [] })]).countP
        (isPilcrowFor ("fr") ("a.json:k"))
      = if containsPilcrow ("$x$¶") then 1 else 0 :=
  c4_exception_suppressed_but_pilcrow_checked [(("fr"), [(("a.json:k"), ())])]
    ("fr") ("a.json:k") [(("a.json:k"), { text := ("$x$¶"), placeholders := [] })]
    [(("a.json:k"), [("name")])] { text := ("$x$¶"), placeholders := [] }
    (by decide) (by decide) (by decide)

theorem c5_report_and_exit_witness :
    report [("w")] [ErrRec.pilcrow ("de") ("k") ("¶")]
        = RunResult.finished
            ([("w")] ++ [("ERRORS:"),
              joinLines ([ErrRec.pilcrow ("de") ("k") ("¶")].map ErrRec.render)]) 1 ∧
    ∀ e ∈ [ErrRec.pilcrow ("de") ("k") ("¶")], ∃ pre post,
      joinLines ([ErrRec.pilcrow ("de") ("k") ("¶")].map ErrRec.render)
        = pre ++ ErrRec.render e ++ post :=
  (c5_report_and_exit [("w")] [ErrRec.pilcrow ("de") ("k") ("¶")]).2 (by simp)

theorem c6_missing_reference_fails_fast_witness :
    main ⟨[]⟩ ("en") none
        = RunResult.fatalExit (("The folder for the reference locale (")
            ++ ("en") ++ (") does not exist")) ∧
    (main ⟨[]⟩ ("en") none).exitCode = 1 ∧
    ∃ pre post,
      ("The folder for the reference locale (") ++ ("en") ++ (") does not exist")
        = pre ++ ("en") ++ post :=
  c6_missing_reference_fails_fast ⟨[]⟩ ("en") none (by rfl)

theorem c7_untranslated_silently_skipped_witness :
    ErrRec.key (ErrRec.placeholderMismatch ("fr") ("f.json:other") ("no tokens"))
      ≠ ("f.json:k") :=
  c7_untranslated_silently_skipped (ExcDict.withPlaceholders []) ("fr")
    [(("f.json:other"), { text := ("no tokens"), placeholders := [] })]
    [(("f.json:k"), [("name")]), (("f.json:other"), [("name")])] ("f.json:k")
    (by rfl)
    [ErrRec.placeholderMismatch ("fr") ("f.json:other") ("no tokens")]
    (by rfl)
    (ErrRec.placeholderMismatch ("fr") ("f.json:other") ("no tokens"))
    (by simp)

theorem c10_no_placeholders_never_reported_witness :
    ErrRec.placeholderMismatch ("fr") ("f.json:k") ("$x$") ∉ ([] : List ErrRec) :=
  c10_no_placeholders_never_reported
    [(("f.json:k"), { text := ("t"), placeholders := [] })] ("f.json:k")
    { text := ("t"), placeholders := [] } (by decide) (by rfl) (by rfl)
    ExcDict.emptyDict ("fr")
    [(("f.json:k"), { text := ("$x$"), placeholders := [] })] [] (by rfl) ("$x$")

end CheckLocales
